import Mathlib

/-!
Shallow embedding of `pytorch_widedeep/models/embeddings_layers.py`.

Tensors are modelled as nested lists of rationals (float arithmetic is
modelled exactly over `ℚ`): a batch is a list of rows, an embedding table a
list of rows.  Fallible tensor operations (embedding lookups, column
slicing, `torch.cat` on an empty list, Python attribute/key lookups) return
`Except String`.  Random parameter initialisation is modelled by passing the
random draws as explicit function arguments to the constructors; trained
parameter states are modelled by quantifying over well-formed module states.
All claims about `forward` are stated in evaluation mode (`self.training =
False`) unless the claim itself is about training mode; in evaluation mode
both `nn.Dropout` and `FullEmbeddingDropout` are the identity.
-/

namespace WideDeep

/-- A vector: one row of a tensor. -/
abbrev Vec := List ℚ

/-- A rank-2 tensor: a list of rows. -/
abbrev Mat := List (List ℚ)

/-- A rank-3 tensor. -/
abbrev T3 := List (List (List ℚ))

/-- Python `int(q)`: truncation toward zero. -/
def pyInt (q : ℚ) : ℤ := if 0 ≤ q then ⌊q⌋ else ⌈q⌉

/-- `Tensor.clamp_(lo, hi)` applied to one scalar. -/
def clampQ (lo hi v : ℚ) : ℚ := max lo (min hi v)

/-- Error message of a failed Python attribute lookup. -/
def attrErrMsg (cls attr : String) : String :=
  "AttributeError: " ++ cls ++ " object has no attribute " ++ attr

/-- Error message of an out-of-range embedding lookup / tensor index. -/
def idxErrMsg : String := "IndexError: index out of range"

/-- Error message of a failed dict lookup (`column_idx[col]`, `ModuleDict`). -/
def keyErrMsg : String := "KeyError"

/-- Error message of `torch.cat` on an empty list of tensors. -/
def catEmptyMsg : String := "RuntimeError: torch.cat expected a non-empty list of Tensors"

/-- Effectful map over a list in the `Except String` monad, used for Python
list comprehensions whose body may raise. -/
def mapME (f : α → Except String β) : List α → Except String (List β)
  | [] => .ok []
  | a :: as => do
    let b ← f a
    let bs ← mapME f as
    .ok (b :: bs)

/-- Dict access `d[k]` on an association list: `KeyError` when absent. -/
def lookupIdx (d : List (String × ℕ)) (k : String) : Except String ℕ :=
  match d.lookup k with
  | some v => .ok v
  | none => .error keyErrMsg

/-- Embedding lookup `nn.Embedding.forward` at a single (already `.long()`-cast)
code: row `code` of the weight matrix, `IndexError` out of range. -/
def embLookupZ (weight : Mat) (code : ℤ) : Except String Vec :=
  if 0 ≤ code then
    match weight.get? code.toNat with
    | some r => .ok r
    | none => .error idxErrMsg
  else .error idxErrMsg

/-- Weight matrix of `nn.Embedding(rows, cols, padding_idx=0)` right after
construction: row 0 is zeroed by the padding initialisation, the remaining
entries come from the random draw `draw`. -/
def mkTable (rows cols : ℕ) (draw : ℕ → ℕ → ℚ) : Mat :=
  (List.range rows).map (fun i =>
    (List.range cols).map (fun j => if i = 0 then 0 else draw i j))

/-- Column slice `X[:, i]` followed by `.long()`: one integer code per row. -/
def sliceColZ (X : Mat) (i : ℕ) : Except String (List ℤ) :=
  mapME (fun row => match row.get? i with
    | some v => .ok (pyInt v)
    | none => .error idxErrMsg) X

/-- Column slice `X[:, idxs]`: keeps the listed columns of every row. -/
def sliceCols (X : Mat) (idxs : List ℕ) : Except String Mat :=
  mapME (fun row => mapME (fun i => match row.get? i with
    | some v => .ok v
    | none => .error idxErrMsg) idxs) X

/-- Uniform shape of a rank-2 tensor: `n` rows, each of width `w`. -/
def matShape (M : Mat) (n w : ℕ) : Prop :=
  M.length = n ∧ ∀ r ∈ M, r.length = w

/-- Pointwise addition of a broadcast `(n_cols, D)` bias to an
`(N, n_cols, D)` tensor: `x + b.unsqueeze(0)`. -/
def addBias3 (b : Mat) (x : T3) : T3 :=
  x.map (fun s => List.zipWith (fun er br => er.zipWith (· + ·) br) s b)


/-!  ### FullEmbeddingDropout (lines 19-37)  -/

/-- Module state of `FullEmbeddingDropout`: `__init__` validates the
probability and stores it in `self.p`; no other attribute is ever assigned. -/
structure FullEmbeddingDropout where
  p : ℚ

/-- Constructor (lines 20-25): rejects probabilities outside `[0, 1]`. -/
def FullEmbeddingDropout.init (p : ℚ) : Except String FullEmbeddingDropout :=
  if p < 0 ∨ p > 1 then
    .error "ValueError: p probability has to be between 0 and 1"
  else .ok ⟨p⟩

/-- Python attribute lookup for `self.dropout` on a `FullEmbeddingDropout`
instance.  The constructor assigns only `self.p` (line 25), never
`self.dropout`, so the lookup always fails; `none` models the
`AttributeError` that `nn.Module.__getattr__` raises. -/
def FullEmbeddingDropout.dropoutAttr (_m : FullEmbeddingDropout) : Option ℚ := none

/-- `forward` (lines 27-34).  In training mode the mask expression reads
`self.dropout` (twice), so evaluation of that branch raises the
`AttributeError` before any tensor operation; `bern` supplies the Bernoulli
draws (one per mask slot) the expression would otherwise consume.  In
evaluation mode the input is returned unchanged. -/
def FullEmbeddingDropout.forward (m : FullEmbeddingDropout) (training : Bool)
    (bern : ℕ → ℚ) (X : Mat) : Except String Mat :=
  if training then
    match m.dropoutAttr with
    | some d =>
        .ok (X.enum.map (fun rv => rv.2.map (fun v => bern rv.1 / (1 - d) * v)))
    | none => .error (attrErrMsg "FullEmbeddingDropout" "dropout")
  else .ok X

/-!  ### SharedEmbeddings (lines 94-128)  -/

/-- Module state of `SharedEmbeddings`: the flag `add_shared_embed`, the
embedding table weight `(n_embed, embed_dim)`, the shared parameter
`shared_embed` (width `embed_dim` in additive mode, `int(embed_dim *
frac_shared_embed)` in overwrite mode), and the dropout configuration. -/
structure SharedEmbeddings where
  add_shared_embed : Bool
  embedWeight : Mat
  shared_embed : Vec
  fullDropout : Bool
  dropoutP : ℚ

/-- Constructor (lines 95-119), with the framework failure modes of its
tensor allocations.  In order: asserts `frac_shared_embed < 1`; builds
`nn.Embedding(n_embed, embed_dim, padding_idx=0)` — which zeroes row 0
during initialisation and therefore raises `IndexError` when `n_embed = 0`
(the padding row does not exist) — and clamps the weight into `[-2, 2]`;
computes the shared-parameter width `embed_dim` (additive mode) or
`int(embed_dim * frac_shared_embed)` (overwrite mode, a signed integer);
then allocates `torch.empty(1, col_embed_dim)` — which raises
`RuntimeError` when the computed width is negative — and draws the shared
parameter.  `weightDraw`/`sharedDraw` supply the random draws. -/
def SharedEmbeddings.init (n_embed embed_dim : ℕ) (embed_dropout : ℚ)
    (full_embed_dropout add_shared_embed : Bool) (frac_shared_embed : ℚ)
    (weightDraw : ℕ → ℕ → ℚ) (sharedDraw : ℕ → ℚ) :
    Except String SharedEmbeddings :=
  if frac_shared_embed < 1 then
    if n_embed = 0 then
      .error "IndexError: index 0 is out of bounds for dimension 0 with size 0"
    else
      let col_embed_dim : ℤ :=
        if add_shared_embed then (embed_dim : ℤ)
        else pyInt ((embed_dim : ℚ) * frac_shared_embed)
      if col_embed_dim < 0 then
        .error "RuntimeError: Trying to create tensor with negative dimension"
      else
        .ok { add_shared_embed := add_shared_embed
              embedWeight := (mkTable n_embed embed_dim weightDraw).map
                (fun r => r.map (clampQ (-2) 2))
              shared_embed := (List.range col_embed_dim.toNat).map sharedDraw
              fullDropout := full_embed_dropout
              dropoutP := embed_dropout }
  else .error "AssertionError: frac_shared_embed must be less than 1"

/-- `forward` (lines 121-128) in evaluation mode, on a batch `X` of integer
codes.  `self.dropout` (either variant) is the identity in evaluation mode,
so `out = self.dropout(self.embed(X))` is the plain table lookup; then the
shared vector is broadcast over the batch and either added to every row
(`add_shared_embed`) or written over the first `shared_embed.length`
entries of every row. -/
def SharedEmbeddings.forward_eval (m : SharedEmbeddings) (X : List ℤ) :
    Except String Mat := do
  let out ← mapME (embLookupZ m.embedWeight) X
  if m.add_shared_embed then
    .ok (out.map (fun r => r.zipWith (· + ·) m.shared_embed))
  else
    .ok (out.map (fun r => m.shared_embed ++ r.drop m.shared_embed.length))

/-!  ### ContEmbeddings (lines 43-91)  -/

/-- Module state of `ContEmbeddings`: per-column weight of shape
`(n_cont_cols, embed_dim)`, optional bias of the same shape, optional
elementwise activation (the result of `get_activation_fn(activation)`,
modelled as an abstract scalar function since that helper maps an
activation name to a fixed elementwise nonlinearity), and the dropout
probability. -/
structure ContEmbeddings where
  n_cont_cols : ℕ
  embed_dim : ℕ
  embed_dropout : ℚ
  use_bias : Bool
  weight : Mat
  bias : Option Mat
  act : Option (ℚ → ℚ)

/-- Constructor (lines 44-67): draws `weight : (n_cont_cols, embed_dim)` and,
when `use_bias`, a bias of the same shape; `activation` arrives already
resolved to its elementwise function (or `none`). -/
def ContEmbeddings.init (n_cont_cols embed_dim : ℕ) (embed_dropout : ℚ)
    (use_bias : Bool) (activation : Option (ℚ → ℚ))
    (weightDraw biasDraw : ℕ → ℕ → ℚ) : ContEmbeddings :=
  { n_cont_cols := n_cont_cols
    embed_dim := embed_dim
    embed_dropout := embed_dropout
    use_bias := use_bias
    weight := (List.range n_cont_cols).map (fun i =>
      (List.range embed_dim).map (fun j => weightDraw i j))
    bias := if use_bias then
        some ((List.range n_cont_cols).map (fun i =>
          (List.range embed_dim).map (fun j => biasDraw i j)))
      else none
    act := activation }

/-- `F.dropout(x, p, training=True)` on a rank-3 tensor: each element is
kept (and rescaled by `1/(1-p)`) or zeroed according to the Bernoulli draw
`keep` for its position. -/
def dropout3 (p : ℚ) (keep : ℕ → ℕ → ℕ → Bool) (x : T3) : T3 :=
  x.enum.map (fun ns => ns.2.enum.map (fun cs => cs.2.enum.map (fun ds =>
    if keep ns.1 cs.1 ds.1 then ds.2 / (1 - p) else 0)))

/-- `forward` (lines 76-85): `x = weight.unsqueeze(0) * X.unsqueeze(2)`
(so `x[n,c,:] = weight[c,:] * X[n,c]`), plus the broadcast bias when
present, then the optional activation elementwise, then
`F.dropout(x, embed_dropout, training)` — the identity when `training`
is false. -/
def ContEmbeddings.forward (m : ContEmbeddings) (training : Bool)
    (keep : ℕ → ℕ → ℕ → Bool) (X : Mat) : T3 :=
  let x : T3 := X.map (fun row =>
    List.zipWith (fun wr xv => wr.map (fun w => w * xv)) m.weight row)
  let xb : T3 := match m.bias with
    | some b => x.map (fun s => List.zipWith (fun er br => er.zipWith (· + ·) br) s b)
    | none => x
  let xa : T3 := match m.act with
    | some f => xb.map (fun s => s.map (fun r => r.map f))
    | none => xb
  if training then dropout3 m.embed_dropout keep xa else xa

/-- Element access `t[n][c][d]` on a rank-3 tensor. -/
def get3 (t : T3) (n c d : ℕ) : Option ℚ :=
  ((t.get? n).bind (fun s => s.get? c)).bind (fun r => r.get? d)

/-- Value of an optional bias matrix at a position (0 when absent). -/
def biasAt (b : Option Mat) (c d : ℕ) : ℚ :=
  match b with
  | some bm => (((bm.get? c).bind (fun r => r.get? d)).getD 0)
  | none => 0

/-- Application of an optional elementwise activation. -/
def applyAct (a : Option (ℚ → ℚ)) (v : ℚ) : ℚ :=
  match a with
  | some f => f v
  | none => v


/-!  ### SameSizeCatEmbeddings (lines 164-236)  -/

/-- The `self.embed` attribute of `SameSizeCatEmbeddings`: a `ModuleDict` of
per-column `SharedEmbeddings` (shared-embedding mode) or one merged
`nn.Embedding` table together with the dropout configuration (single-table
mode). -/
inductive SSBranch where
  | sharedDict (layers : List (String × SharedEmbeddings)) : SSBranch
  | singleTable (table : Mat) (fullDrop : Bool) (dropP : ℚ) : SSBranch

/-- Module state of `SameSizeCatEmbeddings`. -/
structure SameSizeCatEmbeddings where
  column_idx : List (String × ℕ)
  embed_input : List (String × ℕ)
  embed_dropout : ℚ
  shared_embed : Bool
  n_tokens : ℕ
  categorical_cols : List String
  cat_idx : List ℕ
  bias : Option Mat
  embed : SSBranch

/-- The source constructor tests `use_bias is not None` (line 187); the
argument is a `bool`, never `None`, so the test holds for both values. -/
def boolIsNotNone (_b : Bool) : Bool := true

/-- Warning emitted at line 193-196. -/
def biasWarnMsg : String :=
  "The current implementation of SharedEmbeddings does not use bias"

/-- Constructor (lines 165-219).  Computes `n_tokens`, the column list and
`cat_idx` (dict lookups may raise `KeyError`); creates the bias parameter
whenever `use_bias is not None` (always, since it is a `bool`) and warns if
`shared_embed`; then builds either one `SharedEmbeddings` per column (with
`val` rows for the `cls_token` column and `val + 1` otherwise) or one merged
`nn.Embedding(n_tokens + 1, embed_dim, padding_idx=0)`.  Returns the state
together with the list of warnings emitted. -/
def SameSizeCatEmbeddings.init (embed_dim : ℕ) (column_idx : List (String × ℕ))
    (embed_input : List (String × ℕ)) (embed_dropout : ℚ)
    (full_embed_dropout shared_embed add_shared_embed : Bool)
    (frac_shared_embed : ℚ) (use_bias : Bool)
    (biasDraw : ℕ → ℕ → ℚ) (tableDraw : String → ℕ → ℕ → ℚ)
    (sharedDraw : String → ℕ → ℚ) :
    Except String (SameSizeCatEmbeddings × List String) := do
  let n_tokens := (embed_input.map (fun ei => ei.2)).sum
  let categorical_cols := embed_input.map (fun ei => ei.1)
  let cat_idx ← mapME (fun col => lookupIdx column_idx col) categorical_cols
  let bias : Option Mat :=
    if boolIsNotNone use_bias then
      some ((List.range categorical_cols.length).map (fun i =>
        (List.range embed_dim).map (fun j => biasDraw i j)))
    else none
  let warns : List String :=
    if boolIsNotNone use_bias ∧ shared_embed then [biasWarnMsg] else []
  let branch ←
    if shared_embed then do
      let layers ← mapME (fun cv : String × ℕ => do
        let se ← SharedEmbeddings.init
          (if cv.1 = "cls_token" then cv.2 else cv.2 + 1) embed_dim
          embed_dropout full_embed_dropout add_shared_embed frac_shared_embed
          (tableDraw cv.1) (sharedDraw cv.1)
        .ok ("emb_layer_" ++ cv.1, se)) embed_input
      .ok (SSBranch.sharedDict layers)
    else
      .ok (SSBranch.singleTable (mkTable (n_tokens + 1) embed_dim (tableDraw ""))
        full_embed_dropout embed_dropout)
  .ok ({ column_idx := column_idx
         embed_input := embed_input
         embed_dropout := embed_dropout
         shared_embed := shared_embed
         n_tokens := n_tokens
         categorical_cols := categorical_cols
         cat_idx := cat_idx
         bias := bias
         embed := branch }, warns)

/-- `torch.cat([e.unsqueeze(1) for e in embeds], 1)`: stacks one `(N, D)`
matrix per column into an `(N, n_cols, D)` tensor; `torch.cat` rejects an
empty list. -/
def stackDim1 (ms : List Mat) (n : ℕ) : Except String T3 :=
  if ms.isEmpty then .error catEmptyMsg
  else .ok ((List.range n).map (fun i => ms.map (fun M => M.getD i [])))

/-- Single-table lookup `self.embed(X[:, self.cat_idx].long())` (line 231):
slice the categorical columns, cast to integer codes, and look every code
up in the merged table, giving an `(N, n_cols, D)` tensor. -/
def SameSizeCatEmbeddings.singleLookup (table : Mat) (cat_idx : List ℕ) (X : Mat) :
    Except String T3 := do
  let codes ← mapME (fun row => mapME (fun i =>
    match row.get? i with
    | some v => Except.ok (pyInt v)
    | none => Except.error idxErrMsg) cat_idx) X
  mapME (fun crow => mapME (embLookupZ table) crow) codes

/-- `forward` (lines 221-236) in evaluation mode.  Shared-embedding path:
per-column slice, `.long()` cast, per-column `SharedEmbeddings` forward,
`unsqueeze(1)` and concatenation along the token axis.  Single-table path:
`self.embed(X[:, self.cat_idx].long())`, then `+ self.bias.unsqueeze(0)`
when the bias attribute is not `None`, then dropout (identity in
evaluation mode). -/
def SameSizeCatEmbeddings.forward_eval (m : SameSizeCatEmbeddings) (X : Mat) :
    Except String T3 :=
  if m.shared_embed then
    match m.embed with
    | .sharedDict layers => do
        let embeds ← mapME (fun cv : String × ℕ => do
          let idx ← lookupIdx m.column_idx cv.1
          let codes ← sliceColZ X idx
          let se ← (match layers.lookup ("emb_layer_" ++ cv.1) with
            | some se => Except.ok se
            | none => Except.error keyErrMsg)
          se.forward_eval codes) m.embed_input
        stackDim1 embeds X.length
    | .singleTable _ _ _ => .error (attrErrMsg "ModuleDict" "getitem")
  else
    match m.embed with
    | .singleTable table _ _ => do
        let x ← SameSizeCatEmbeddings.singleLookup table m.cat_idx X
        match m.bias with
        | some b => .ok (addBias3 b x)
        | none => .ok x
    | .sharedDict _ => .error (attrErrMsg "Embedding" "call")

/-!  ### DiffSizeCatEmbeddings (lines 131-161)  -/

/-- Module state of `DiffSizeCatEmbeddings`: the column index, the spec
`(col, cardinality, width)` list, the `ModuleDict` of per-column embedding
tables keyed `"emb_layer_" ++ col`, the dropout probability and
`emb_out_dim`. -/
structure DiffSizeCatEmbeddings where
  column_idx : List (String × ℕ)
  embed_input : List (String × ℕ × ℕ)
  embed_layers : List (String × Mat)
  dropoutP : ℚ
  emb_out_dim : ℕ

/-- Constructor (lines 132-152): one `nn.Embedding(val + 1, dim,
padding_idx=0)` per `(col, val, dim)` in the spec (`+ 1` because 0 is
reserved for padding/unseen categories), and `emb_out_dim` is the sum of
the per-column widths. -/
def DiffSizeCatEmbeddings.init (column_idx : List (String × ℕ))
    (embed_input : List (String × ℕ × ℕ)) (embed_dropout : ℚ)
    (tableDraw : String → ℕ → ℕ → ℚ) : DiffSizeCatEmbeddings :=
  { column_idx := column_idx
    embed_input := embed_input
    embed_layers := embed_input.map (fun cvd =>
      ("emb_layer_" ++ cvd.1, mkTable (cvd.2.1 + 1) cvd.2.2 (tableDraw cvd.1)))
    dropoutP := embed_dropout
    emb_out_dim := (embed_input.map (fun cvd => cvd.2.2)).sum }

/-- One element of the `forward` list comprehension (lines 155-158): slice
column `column_idx[col]` of the batch, cast to integer codes, and look every
code up in the table for `col`. -/
def DiffSizeCatEmbeddings.colForward (m : DiffSizeCatEmbeddings) (X : Mat)
    (cvd : String × ℕ × ℕ) : Except String Mat := do
  let idx ← lookupIdx m.column_idx cvd.1
  let codes ← sliceColZ X idx
  let table ← (match m.embed_layers.lookup ("emb_layer_" ++ cvd.1) with
    | some t => Except.ok t
    | none => Except.error keyErrMsg)
  mapME (embLookupZ table) codes

/-- `torch.cat(embed, 1)`: concatenates the per-column `(N, dim_i)` outputs
row by row; `torch.cat` rejects an empty list. -/
def catCols : List Mat → Except String Mat
  | [] => .error catEmptyMsg
  | [M] => .ok M
  | M :: M2 :: Ms => (catCols (M2 :: Ms)).bind (fun R => .ok (M.zipWith (· ++ ·) R))

/-- The embedding-lookup phase of `forward`: the list comprehension of
lines 155-158. -/
def DiffSizeCatEmbeddings.lookupPhase (m : DiffSizeCatEmbeddings) (X : Mat) :
    Except String (List Mat) :=
  mapME (m.colForward X) m.embed_input

/-- `forward` (lines 154-161) in evaluation mode: per-column lookups,
`torch.cat` along the embedding axis, then `nn.Dropout` (identity in
evaluation mode). -/
def DiffSizeCatEmbeddings.forward_eval (m : DiffSizeCatEmbeddings) (X : Mat) :
    Except String Mat := do
  let embeds ← m.lookupPhase X
  catCols embeds

/-!  ### DiffSizeCatAndContEmbeddings (lines 239-308)  -/

/-- Module state of `DiffSizeCatAndContEmbeddings`.  Attributes assigned
only on one side of a constructor branch (`cat_embed`, `cont_idx`,
`cont_norm`, `cont_embed`) are `Option`-valued: `none` models the attribute
never having been assigned, so that reading it raises `AttributeError`.
The continuous normalisation layer (`nn.Identity` / `nn.LayerNorm` /
`nn.BatchNorm1d`, all framework modules) is carried as the evaluation-mode
function it applies to the sliced continuous block. -/
structure DiffSizeCatAndContEmbeddings where
  cat_embed_input : Option (List (String × ℕ × ℕ))
  continuous_cols : Option (List String)
  embed_continuous : Bool
  cat_embed : Option DiffSizeCatEmbeddings
  cat_out_dim : ℕ
  cont_idx : Option (List ℕ)
  cont_norm : Option (Mat → Mat)
  cont_embed : Option ContEmbeddings
  cont_out_dim : ℕ
  output_dim : ℕ

/-- Constructor (lines 240-291).  Categorical branch when `cat_embed_input`
is not `None` (`cat_out_dim` = sum of widths, else 0); continuous branch
when `continuous_cols` is not `None`: `cont_idx` from dict lookups, the
normalisation layer chosen by `cont_norm_layer` (`layerNormImpl` /
`batchNormImpl` are the framework layers in evaluation mode, `nn.Identity`
otherwise), an optional `ContEmbeddings` (then `cont_out_dim = C * D`, else
`C`); finally `output_dim = cat_out_dim + cont_out_dim`. -/
def DiffSizeCatAndContEmbeddings.init (column_idx : List (String × ℕ))
    (cat_embed_input : Option (List (String × ℕ × ℕ))) (cat_embed_dropout : ℚ)
    (continuous_cols : Option (List String)) (embed_continuous : Bool)
    (cont_embed_dim : ℕ) (cont_embed_dropout : ℚ)
    (cont_embed_activation : Option (ℚ → ℚ)) (use_cont_bias : Bool)
    (cont_norm_layer : String) (layerNormImpl batchNormImpl : ℕ → Mat → Mat)
    (catTableDraw : String → ℕ → ℕ → ℚ) (contWeightDraw contBiasDraw : ℕ → ℕ → ℚ) :
    Except String DiffSizeCatAndContEmbeddings := do
  let (cat_embed, cat_out_dim) :=
    match cat_embed_input with
    | some cei =>
        (some (DiffSizeCatEmbeddings.init column_idx cei cat_embed_dropout catTableDraw),
         (cei.map (fun cvd => cvd.2.2)).sum)
    | none => (none, 0)
  match continuous_cols with
  | some cols => do
      let cont_idx ← mapME (fun col => lookupIdx column_idx col) cols
      let cont_norm : Mat → Mat :=
        if cont_norm_layer = "layernorm" then layerNormImpl cols.length
        else if cont_norm_layer = "batchnorm" then batchNormImpl cols.length
        else id
      if embed_continuous then
        .ok { cat_embed_input := cat_embed_input
              continuous_cols := continuous_cols
              embed_continuous := embed_continuous
              cat_embed := cat_embed
              cat_out_dim := cat_out_dim
              cont_idx := some cont_idx
              cont_norm := some cont_norm
              cont_embed := some (ContEmbeddings.init cols.length cont_embed_dim
                cont_embed_dropout use_cont_bias cont_embed_activation
                contWeightDraw contBiasDraw)
              cont_out_dim := cols.length * cont_embed_dim
              output_dim := cat_out_dim + cols.length * cont_embed_dim }
      else
        .ok { cat_embed_input := cat_embed_input
              continuous_cols := continuous_cols
              embed_continuous := embed_continuous
              cat_embed := cat_embed
              cat_out_dim := cat_out_dim
              cont_idx := some cont_idx
              cont_norm := some cont_norm
              cont_embed := none
              cont_out_dim := cols.length
              output_dim := cat_out_dim + cols.length }
  | none =>
      .ok { cat_embed_input := cat_embed_input
            continuous_cols := continuous_cols
            embed_continuous := embed_continuous
            cat_embed := cat_embed
            cat_out_dim := cat_out_dim
            cont_idx := none
            cont_norm := none
            cont_embed := none
            cont_out_dim := 0
            output_dim := cat_out_dim + 0 }

/-- `einops.rearrange(x_cont, "b s d -> b (s d)")`: flattens the token and
embedding axes of each sample. -/
def rearrangeBSD (t : T3) : Mat := t.map List.flatten

/-- `forward` (lines 293-308) in evaluation mode: the categorical branch
runs iff `cat_embed_input` is not `None` (else `x_cat = None`), the
continuous branch slices `cont_idx`, applies `cont_norm` and, when
`embed_continuous`, the continuous embedder followed by the rearrange
flattening; reading a never-assigned attribute raises. -/
def DiffSizeCatAndContEmbeddings.forward_eval (m : DiffSizeCatAndContEmbeddings)
    (X : Mat) : Except String (Option Mat × Option Mat) := do
  let x_cat : Option Mat ←
    match m.cat_embed_input with
    | some _ =>
        match m.cat_embed with
        | some ce => (ce.forward_eval X).map some
        | none => .error (attrErrMsg "DiffSizeCatAndContEmbeddings" "cat_embed")
    | none => .ok none
  let x_cont : Option Mat ←
    match m.continuous_cols with
    | some _ => do
        let idxs ← (match m.cont_idx with
          | some idxs => Except.ok idxs
          | none => Except.error (attrErrMsg "DiffSizeCatAndContEmbeddings" "cont_idx"))
        let sliced ← sliceCols X idxs
        let normed ← (match m.cont_norm with
          | some nf => Except.ok (nf sliced)
          | none => Except.error (attrErrMsg "DiffSizeCatAndContEmbeddings" "cont_norm"))
        if m.embed_continuous then
          match m.cont_embed with
          | some ce => .ok (some (rearrangeBSD (ce.forward false (fun _ _ _ => true) normed)))
          | none => .error (attrErrMsg "DiffSizeCatAndContEmbeddings" "cont_embed")
        else .ok (some normed)
    | none => .ok none
  .ok (x_cat, x_cont)

/-!  ### SameSizeCatAndContEmbeddings (lines 311-381)  -/

/-- Module state of `SameSizeCatAndContEmbeddings`.  The constructor
(lines 312-365) assigns `cat_embed_input`, `continuous_cols`,
`embed_continuous` and, conditionally, `cat_embed`, `cont_idx`,
`cont_norm`, `cont_embed` — and nothing else. -/
structure SameSizeCatAndContEmbeddings where
  cat_embed_input : Option (List (String × ℕ))
  continuous_cols : Option (List String)
  embed_continuous : Bool
  cat_embed : Option SameSizeCatEmbeddings
  cont_idx : Option (List ℕ)
  cont_norm : Option (Mat → Mat)
  cont_embed : Option ContEmbeddings

/-- Constructor (lines 312-365): builds `SameSizeCatEmbeddings` when
`cat_embed_input` is not `None`, and the continuous branch (normalisation
choice plus optional `ContEmbeddings` of width `embed_dim`) when
`continuous_cols` is not `None`.  Returns the state with the warnings the
categorical sub-constructor emitted.  No `output_dim` attribute is ever
assigned anywhere in this constructor. -/
def SameSizeCatAndContEmbeddings.init (embed_dim : ℕ)
    (column_idx : List (String × ℕ)) (cat_embed_input : Option (List (String × ℕ)))
    (cat_embed_dropout : ℚ) (full_embed_dropout shared_embed add_shared_embed : Bool)
    (frac_shared_embed : ℚ) (use_embed_bias : Bool)
    (continuous_cols : Option (List String)) (embed_continuous : Bool)
    (cont_embed_dropout : ℚ) (cont_embed_activation : Option (ℚ → ℚ))
    (use_cont_bias : Bool) (cont_norm_layer : String)
    (layerNormImpl batchNormImpl : ℕ → Mat → Mat)
    (biasDraw : ℕ → ℕ → ℚ) (tableDraw : String → ℕ → ℕ → ℚ)
    (sharedDraw : String → ℕ → ℚ) (contWeightDraw contBiasDraw : ℕ → ℕ → ℚ) :
    Except String (SameSizeCatAndContEmbeddings × List String) := do
  let (cat_embed, warns) ←
    match cat_embed_input with
    | some cei => do
        let (ce, w) ← SameSizeCatEmbeddings.init embed_dim column_idx cei
          cat_embed_dropout full_embed_dropout shared_embed add_shared_embed
          frac_shared_embed use_embed_bias biasDraw tableDraw sharedDraw
        Except.ok (some ce, w)
    | none => Except.ok ((none : Option SameSizeCatEmbeddings), ([] : List String))
  match continuous_cols with
  | some cols => do
      let cont_idx ← mapME (fun col => lookupIdx column_idx col) cols
      let cont_norm : Mat → Mat :=
        if cont_norm_layer = "layernorm" then layerNormImpl cols.length
        else if cont_norm_layer = "batchnorm" then batchNormImpl cols.length
        else id
      let cont_embed : Option ContEmbeddings :=
        if embed_continuous then
          some (ContEmbeddings.init cols.length embed_dim cont_embed_dropout
            use_cont_bias cont_embed_activation contWeightDraw contBiasDraw)
        else none
      .ok ({ cat_embed_input := cat_embed_input
             continuous_cols := continuous_cols
             embed_continuous := embed_continuous
             cat_embed := cat_embed
             cont_idx := some cont_idx
             cont_norm := some cont_norm
             cont_embed := cont_embed }, warns)
  | none =>
      .ok ({ cat_embed_input := cat_embed_input
             continuous_cols := continuous_cols
             embed_continuous := embed_continuous
             cat_embed := cat_embed
             cont_idx := none
             cont_norm := none
             cont_embed := none }, warns)

/-- Python attribute lookup for `output_dim` on a constructed
`SameSizeCatAndContEmbeddings`: the constructor never assigns such an
attribute (lines 312-365 assign only the fields listed above), so the
lookup always fails; `none` models the `AttributeError`. -/
def SameSizeCatAndContEmbeddings.output_dimAttr
    (_m : SameSizeCatAndContEmbeddings) : Option ℕ := none

/-- A concrete single-table `SameSizeCatEmbeddings` state: one column `a`
of cardinality 3, width 2, all random draws 0, `use_bias = False`. -/
def c4State : SameSizeCatEmbeddings :=
  ⟨[("a", 0)], [("a", 3)], 0, false, 3, ["a"], [0], some [[0, 0]],
    .singleTable (mkTable 4 2 (fun _ _ => 0)) false 0⟩

/-- A concrete `ContEmbeddings` state: one continuous column, width 2,
bias enabled, activation `v * 2`. -/
def c8M : ContEmbeddings :=
  ⟨1, 2, 0, true, [[2, 3]], some [[10, 20]], some (fun v => v * 2)⟩

/-- A concrete variable-width composite state: one categorical column `a`
(cardinality 2, width 3), one raw continuous column `e`, no normalisation,
all draws 0. -/
def c1State : DiffSizeCatAndContEmbeddings :=
  ⟨some [("a", 2, 3)], some ["e"], false,
   some (DiffSizeCatEmbeddings.init [("a", 0), ("e", 1)] [("a", 2, 3)] 0
     (fun _ _ _ => 0)),
   3, some [1], some id, none, 1, 4⟩

/-!  ### Generic helper lemmas  -/

section MapMELemmas

theorem mapME_length {f : α → Except String β} :
    ∀ {xs : List α} {ys : List β}, mapME f xs = .ok ys → ys.length = xs.length := by
  intro xs
  induction xs with
  | nil => intro ys h; cases h; rfl
  | cons a as ih =>
    intro ys h
    simp only [mapME, Except.bind] at h
    cases hfa : f a with
    | error e => rw [hfa] at h; cases h
    | ok b =>
      rw [hfa] at h
      cases hrest : mapME f as with
      | error e => rw [hrest] at h; cases h
      | ok bs =>
        rw [hrest] at h
        cases h
        simp [ih hrest]

theorem mapME_get {f : α → Except String β} :
    ∀ {xs : List α} {ys : List β}, mapME f xs = .ok ys →
      ∀ i x, xs.get? i = some x → ∃ y, ys.get? i = some y ∧ f x = .ok y := by
  intro xs
  induction xs with
  | nil => intro ys _ i x hx; simp at hx
  | cons a as ih =>
    intro ys h i x hx
    simp only [mapME, Except.bind] at h
    cases hfa : f a with
    | error e => rw [hfa] at h; cases h
    | ok b =>
      rw [hfa] at h
      cases hrest : mapME f as with
      | error e => rw [hrest] at h; cases h
      | ok bs =>
        rw [hrest] at h
        cases h
        cases i with
        | zero => simp at hx; subst hx; exact ⟨b, rfl, hfa⟩
        | succ n => exact ih hrest n x hx

theorem mapME_mem {f : α → Except String β} {xs : List α} {ys : List β}
    (h : mapME f xs = .ok ys) :
    ∀ y ∈ ys, ∃ x ∈ xs, f x = .ok y := by
  intro y hy
  rcases List.mem_iff_get?.mp hy with ⟨i, hi⟩
  have hlen : i < xs.length := by
    have := mapME_length h
    have hi2 : i < ys.length := by
      rcases List.get?_eq_some.mp hi with ⟨hlt, _⟩
      exact hlt
    omega
  rcases List.get?_eq_get hlen with hx
  rcases mapME_get h i _ hx with ⟨y2, hy2, hfy⟩
  rw [hi] at hy2
  cases hy2
  exact ⟨xs.get ⟨i, hlen⟩, List.get_mem xs i hlen, hfy⟩

theorem mapME_ok_of_forall {f : α → Except String β} :
    ∀ {xs : List α}, (∀ x ∈ xs, ∃ y, f x = .ok y) →
      ∃ ys, mapME f xs = .ok ys := by
  intro xs
  induction xs with
  | nil => intro _; exact ⟨[], rfl⟩
  | cons a as ih =>
    intro h
    rcases h a (by simp) with ⟨b, hb⟩
    rcases ih (fun x hx => h x (by simp [hx])) with ⟨bs, hbs⟩
    exact ⟨b :: bs, by simp only [mapME, hb, hbs]; rfl⟩

end MapMELemmas

theorem get?_zipWith {α β γ : Type} {f : α → β → γ} :
    ∀ (as : List α) (bs : List β) (i : ℕ),
      (List.zipWith f as bs).get? i =
        (as.get? i).bind (fun a => (bs.get? i).map (f a)) := by
  intro as
  induction as with
  | nil => intro bs i; simp
  | cons a as ih =>
    intro bs i
    cases bs with
    | nil => simp
    | cons b bs =>
      cases i with
      | zero => simp
      | succ n => simpa using ih bs n


section ExceptLemmas

@[simp] theorem ok_bind {α β : Type} (a : α) (f : α → Except String β) :
    (Except.ok a >>= f) = f a := rfl

@[simp] theorem error_bind {α β : Type} (e : String) (f : α → Except String β) :
    ((Except.error e : Except String α) >>= f) = Except.error e := rfl

@[simp] theorem map_okE {α β : Type} (a : α) (f : α → β) :
    (Except.ok a : Except String α).map f = Except.ok (f a) := rfl

@[simp] theorem map_errE {α β : Type} (e : String) (f : α → β) :
    (Except.error e : Except String α).map f = Except.error e := rfl

end ExceptLemmas

theorem mkTable_shape (rows cols : ℕ) (draw : ℕ → ℕ → ℚ) :
    (mkTable rows cols draw).length = rows ∧
      ∀ r ∈ mkTable rows cols draw, r.length = cols := by
  constructor
  · simp [mkTable]
  · intro r hr
    simp only [mkTable, List.mem_map] at hr
    rcases hr with ⟨i, _, rfl⟩
    simp

/-- C2.  The claim: in training mode with `p = 0`, `FullEmbeddingDropout`
returns exactly its input, without raising.  The code contradicts it (and
its own constructor and `extra_repr`, which use `self.p`): the training
branch of `forward` reads `self.dropout`, an attribute the constructor
never assigns, so the call raises `AttributeError` for every input — here
evaluated at `p = 0` and `X = [[1, 2], [3, 4]]`.  In evaluation mode the
module is the identity, as documented. -/
theorem claim_C2_code_bug :
    FullEmbeddingDropout.init 0 = .ok ⟨0⟩ ∧
    FullEmbeddingDropout.forward ⟨0⟩ true (fun _ => 1) [[1, 2], [3, 4]] =
      .error (attrErrMsg "FullEmbeddingDropout" "dropout") ∧
    FullEmbeddingDropout.forward ⟨0⟩ false (fun _ => 1) [[1, 2], [3, 4]] =
      .ok [[1, 2], [3, 4]] := by
  refine ⟨?_, rfl, rfl⟩
  simp [FullEmbeddingDropout.init]

/-- C9.  A variable-width composite embedder constructed with no categorical
columns and no continuous columns (both `None`) has `output_dim = 0`, and
its forward pass on any batch tensor returns both branches absent
(`(None, None)`) without raising. -/
theorem claim_C9 (column_idx : List (String × ℕ)) (cat_embed_dropout : ℚ)
    (embed_continuous : Bool) (cont_embed_dim : ℕ) (cont_embed_dropout : ℚ)
    (cont_embed_activation : Option (ℚ → ℚ)) (use_cont_bias : Bool)
    (cont_norm_layer : String) (layerNormImpl batchNormImpl : ℕ → Mat → Mat)
    (catTableDraw : String → ℕ → ℕ → ℚ) (contWeightDraw contBiasDraw : ℕ → ℕ → ℚ) :
    ∃ m, DiffSizeCatAndContEmbeddings.init column_idx none cat_embed_dropout
        none embed_continuous cont_embed_dim cont_embed_dropout
        cont_embed_activation use_cont_bias cont_norm_layer layerNormImpl
        batchNormImpl catTableDraw contWeightDraw contBiasDraw = .ok m ∧
      m.output_dim = 0 ∧
      ∀ X : Mat, m.forward_eval X = .ok (none, none) := by
  refine ⟨_, rfl, rfl, fun X => rfl⟩

/-- C9 witness: the theorem applied at a concrete configuration. -/
theorem claim_C9_witness :
    ∃ m, DiffSizeCatAndContEmbeddings.init [("a", 0)] none (1/10)
        none false 32 (1/10) none true "batchnorm" (fun _ => id) (fun _ => id)
        (fun _ _ _ => 0) (fun _ _ => 0) (fun _ _ => 0) = .ok m ∧
      m.output_dim = 0 ∧
      ∀ X : Mat, m.forward_eval X = .ok (none, none) :=
  claim_C9 [("a", 0)] (1/10) false 32 (1/10) none true "batchnorm"
    (fun _ => id) (fun _ => id) (fun _ _ _ => 0) (fun _ _ => 0) (fun _ _ => 0)

theorem sharedInit_ok_of_lt {n_embed embed_dim : ℕ} {p : ℚ} {fd a : Bool}
    {fr : ℚ} {wd : ℕ → ℕ → ℚ} {sd : ℕ → ℚ} (h : fr < 1) (h0 : 0 ≤ fr)
    (hn : n_embed ≠ 0) :
    ∃ mm, SharedEmbeddings.init n_embed embed_dim p fd a fr wd sd = .ok mm := by
  have hcol : ¬ ((if a = true then (embed_dim : ℤ)
      else pyInt ((embed_dim : ℚ) * fr)) < 0) := by
    rw [not_lt]
    cases a with
    | true => simp
    | false =>
      simp only [Bool.false_eq_true, if_false]
      have hq : (0 : ℚ) ≤ (embed_dim : ℚ) * fr := mul_nonneg (by positivity) h0
      simp only [pyInt, hq, if_true]
      exact Int.le_floor.mpr (by exact_mod_cast hq)
  simp only [SharedEmbeddings.init]
  rw [if_pos h, if_neg hn, if_neg hcol]
  exact ⟨_, rfl⟩

/-- C6.  In additive mode the evaluation-mode output of `SharedEmbeddings`
equals the plain embedding-table lookup plus the broadcast shared vector,
elementwise; and the combination mode is fixed per instance at
construction (the constructor stores the `add_shared_embed` argument), so
the additive and overwrite combinations are mutually exclusive — the
additive branch alone is applied here. -/
theorem claim_C6 (m : SharedEmbeddings) (X : List ℤ) (rows : Mat) (D : ℕ)
    (hadd : m.add_shared_embed = true)
    (hrows : ∀ r ∈ m.embedWeight, r.length = D)
    (hsh : m.shared_embed.length = D)
    (hlk : mapME (embLookupZ m.embedWeight) X = .ok rows) :
    (m.forward_eval X =
        .ok (rows.map (fun r => r.zipWith (· + ·) m.shared_embed)) ∧
      ∀ i r, rows.get? i = some r → ∀ j v s, r.get? j = some v →
        m.shared_embed.get? j = some s →
        ∃ o, (rows.map (fun r => r.zipWith (· + ·) m.shared_embed)).get? i =
            some o ∧ o.get? j = some (v + s)) ∧
    (∀ (n2 d2 : ℕ) (p2 : ℚ) (fd2 a2 : Bool) (fr2 : ℚ) (wd2 : ℕ → ℕ → ℚ)
       (sd2 : ℕ → ℚ) (mm : SharedEmbeddings),
       SharedEmbeddings.init n2 d2 p2 fd2 a2 fr2 wd2 sd2 = .ok mm →
       mm.add_shared_embed = a2) := by
  refine ⟨⟨?_, ?_⟩, ?_⟩
  · simp [SharedEmbeddings.forward_eval, hlk, hadd]
  · intro i r hi j v s hv hs
    refine ⟨r.zipWith (· + ·) m.shared_embed, ?_, ?_⟩
    · rw [List.get?_map, hi]; rfl
    · rw [get?_zipWith, hv, hs]; rfl
  · intro n2 d2 p2 fd2 a2 fr2 wd2 sd2 mm hinit
    simp only [SharedEmbeddings.init] at hinit
    by_cases hf : fr2 < 1
    · rw [if_pos hf] at hinit
      by_cases hn : n2 = 0
      · rw [if_pos hn] at hinit
        exact Except.noConfusion hinit
      · rw [if_neg hn] at hinit
        by_cases hcol : (if a2 = true then (d2 : ℤ)
            else pyInt ((d2 : ℚ) * fr2)) < 0
        · rw [if_pos hcol] at hinit
          exact Except.noConfusion hinit
        · rw [if_neg hcol] at hinit
          cases hinit
          rfl
    · rw [if_neg hf] at hinit
      exact Except.noConfusion hinit

/-- C6 witness: the theorem applied at a width-1 table with one code. -/
theorem claim_C6_witness :
    ((SharedEmbeddings.forward_eval ⟨true, [[5]], [7], false, 0⟩ [0] =
        .ok ([[(5 : ℚ)]].map (fun r => r.zipWith (· + ·) [7])) ∧
      ∀ i r, [[(5 : ℚ)]].get? i = some r → ∀ j v s, r.get? j = some v →
        [(7 : ℚ)].get? j = some s →
        ∃ o, ([[(5 : ℚ)]].map (fun r => r.zipWith (· + ·) [7])).get? i =
            some o ∧ o.get? j = some (v + s)) ∧
      ∀ (n2 d2 : ℕ) (p2 : ℚ) (fd2 a2 : Bool) (fr2 : ℚ) (wd2 : ℕ → ℕ → ℚ)
        (sd2 : ℕ → ℚ) (mm : SharedEmbeddings),
        SharedEmbeddings.init n2 d2 p2 fd2 a2 fr2 wd2 sd2 = .ok mm →
        mm.add_shared_embed = a2) :=
  claim_C6 ⟨true, [[5]], [7], false, 0⟩ [0] [[5]] 1 rfl (by decide) rfl (by rfl)

/-- C5.  In overwrite mode (`add_shared_embed = False`) the evaluation-mode
output of `SharedEmbeddings` has, in every row, its first
`shared_width = int(embed_dim * frac_shared_embed)` entries equal to the
shared vector and the remaining entries equal to the unshared
embedding-table lookup, for `frac_shared_embed ∈ {0.1, 0.25, 0.5}`; the
constructor makes the shared vector exactly `shared_width` wide. -/
theorem claim_C5 (m : SharedEmbeddings) (X : List ℤ) (rows : Mat) (D : ℕ)
    (frac : ℚ) (hfrac : frac = 1/10 ∨ frac = 1/4 ∨ frac = 1/2)
    (hadd : m.add_shared_embed = false)
    (hsh : m.shared_embed.length = (pyInt ((D : ℚ) * frac)).toNat)
    (hlk : mapME (embLookupZ m.embedWeight) X = .ok rows) :
    (∃ out, m.forward_eval X = .ok out ∧ out.length = X.length ∧
      ∀ i r, rows.get? i = some r →
        ∃ o, out.get? i = some o ∧
          o.take ((pyInt ((D : ℚ) * frac)).toNat) = m.shared_embed ∧
          o.drop ((pyInt ((D : ℚ) * frac)).toNat) =
            r.drop ((pyInt ((D : ℚ) * frac)).toNat)) ∧
    (∀ (n2 : ℕ) (p2 : ℚ) (fd2 : Bool) (wd2 : ℕ → ℕ → ℚ) (sd2 : ℕ → ℚ)
       (mm : SharedEmbeddings),
       SharedEmbeddings.init n2 D p2 fd2 false frac wd2 sd2 = .ok mm →
       mm.shared_embed.length = (pyInt ((D : ℚ) * frac)).toNat) := by
  refine ⟨?_, ?_⟩
  · refine ⟨rows.map (fun r => m.shared_embed ++ r.drop m.shared_embed.length),
      ?_, ?_, ?_⟩
    · simp [SharedEmbeddings.forward_eval, hlk, hadd]
    · rw [List.length_map, mapME_length hlk]
    · intro i r hi
      refine ⟨m.shared_embed ++ r.drop m.shared_embed.length, ?_, ?_, ?_⟩
      · rw [List.get?_map, hi]; rfl
      · rw [← hsh, List.take_left]
      · rw [← hsh, List.drop_left]
  · intro n2 p2 fd2 wd2 sd2 mm hinit
    simp only [SharedEmbeddings.init, Bool.false_eq_true, if_false] at hinit
    by_cases hf : frac < 1
    · rw [if_pos hf] at hinit
      by_cases hn : n2 = 0
      · rw [if_pos hn] at hinit
        exact Except.noConfusion hinit
      · rw [if_neg hn] at hinit
        by_cases hcol : pyInt ((D : ℚ) * frac) < 0
        · rw [if_pos hcol] at hinit
          exact Except.noConfusion hinit
        · rw [if_neg hcol] at hinit
          cases hinit
          simp
    · rw [if_neg hf] at hinit
      exact Except.noConfusion hinit

/-- C5 witness: a width-4 table, `frac = 1/4`, so `shared_width = 1`. -/
theorem claim_C5_witness :
    (∃ out, SharedEmbeddings.forward_eval
        ⟨false, [[1, 2, 3, 4]], [9], false, 0⟩ [0] = .ok out ∧
      out.length = [(0 : ℤ)].length ∧
      ∀ i r, [[(1 : ℚ), 2, 3, 4]].get? i = some r →
        ∃ o, out.get? i = some o ∧
          o.take ((pyInt ((4 : ℚ) * (1/4))).toNat) = [(9 : ℚ)] ∧
          o.drop ((pyInt ((4 : ℚ) * (1/4))).toNat) =
            r.drop ((pyInt ((4 : ℚ) * (1/4))).toNat)) ∧
    (∀ (n2 : ℕ) (p2 : ℚ) (fd2 : Bool) (wd2 : ℕ → ℕ → ℚ) (sd2 : ℕ → ℚ)
       (mm : SharedEmbeddings),
       SharedEmbeddings.init n2 4 p2 fd2 false (1/4) wd2 sd2 = .ok mm →
       mm.shared_embed.length = (pyInt ((4 : ℚ) * (1/4))).toNat) :=
  claim_C5 ⟨false, [[1, 2, 3, 4]], [9], false, 0⟩ [0] [[1, 2, 3, 4]] 4 (1/4)
    (by norm_num) rfl (by norm_num [pyInt]) (by rfl)

/-- C4.  Because the constructor of `SameSizeCatEmbeddings` tests
`use_bias is not None` rather than the boolean value, for every boolean
`use_bias`: the bias parameter is created (`bias.isSome`); the
shared-embedding warning is emitted exactly when `shared_embed` is true,
regardless of `use_bias`; and in single-table mode the forward pass always
adds the bias after the lookup — so no configuration runs single-table
mode without a bias term. -/
theorem claim_C4 (embed_dim : ℕ) (column_idx : List (String × ℕ))
    (embed_input : List (String × ℕ)) (dropP frac : ℚ)
    (full shared add use_bias : Bool) (bd : ℕ → ℕ → ℚ)
    (td : String → ℕ → ℕ → ℚ) (shd : String → ℕ → ℚ)
    (st : SameSizeCatEmbeddings) (warns : List String)
    (hinit : SameSizeCatEmbeddings.init embed_dim column_idx embed_input dropP
      full shared add frac use_bias bd td shd = .ok (st, warns)) :
    st.bias.isSome = true ∧
    (biasWarnMsg ∈ warns ↔ shared = true) ∧
    (shared = false →
      ∃ bm, st.bias = some bm ∧
        st.embed = .singleTable
          (mkTable ((embed_input.map (fun ei => ei.2)).sum + 1) embed_dim (td ""))
          full dropP ∧
        ∀ X, st.forward_eval X =
          (SameSizeCatEmbeddings.singleLookup
            (mkTable ((embed_input.map (fun ei => ei.2)).sum + 1) embed_dim (td ""))
            st.cat_idx X).map (fun x => addBias3 bm x)) := by
  cases hcat : mapME (fun col => lookupIdx column_idx col)
      (embed_input.map (fun ei => ei.1)) with
  | error e =>
    rw [SameSizeCatEmbeddings.init] at hinit
    rw [hcat] at hinit
    cases hinit
  | ok idxs =>
    cases shared with
    | false =>
      rw [SameSizeCatEmbeddings.init] at hinit
      rw [hcat] at hinit
      simp only [ok_bind, boolIsNotNone, if_true, Bool.false_eq_true, and_false,
        if_false, ite_false, Except.ok.injEq, Prod.mk.injEq] at hinit
      obtain ⟨hst, hwarns⟩ := hinit
      subst hst
      subst hwarns
      refine ⟨rfl, by simp, ?_⟩
      intro _
      refine ⟨_, rfl, rfl, ?_⟩
      intro X
      cases hx : SameSizeCatEmbeddings.singleLookup
          (mkTable ((embed_input.map (fun ei => ei.2)).sum + 1) embed_dim (td ""))
          idxs X with
      | error e => simp [SameSizeCatEmbeddings.forward_eval, hx]
      | ok x => simp [SameSizeCatEmbeddings.forward_eval, hx]
    | true =>
      cases hl : mapME (fun cv : String × ℕ =>
          (do
            let se ← SharedEmbeddings.init
              (if cv.1 = "cls_token" then cv.2 else cv.2 + 1) embed_dim
              dropP full add frac (td cv.1) (shd cv.1)
            Except.ok ("emb_layer_" ++ cv.1, se) :
            Except String (String × SharedEmbeddings))) embed_input with
      | error e =>
        rw [SameSizeCatEmbeddings.init] at hinit
        rw [hcat] at hinit
        simp only [ok_bind] at hinit
        rw [hl] at hinit
        cases hinit
      | ok layers =>
        rw [SameSizeCatEmbeddings.init] at hinit
        rw [hcat] at hinit
        simp only [ok_bind] at hinit
        rw [hl] at hinit
        simp only [ok_bind, boolIsNotNone, if_true, and_true, and_self,
          ite_true, Except.ok.injEq, Prod.mk.injEq] at hinit
        obtain ⟨hst, hwarns⟩ := hinit
        subst hst
        subst hwarns
        refine ⟨rfl, by simp, ?_⟩
        intro h
        simp at h

/-- C4 witness: the theorem applied with `use_bias = False` in single-table
mode — the bias parameter exists and is added anyway. -/
theorem claim_C4_witness :
    c4State.bias.isSome = true ∧
    (biasWarnMsg ∈ ([] : List String) ↔ false = true) ∧
    (false = false →
      ∃ bm, c4State.bias = some bm ∧
        c4State.embed = .singleTable (mkTable 4 2 (fun _ _ => 0)) false 0 ∧
        ∀ X, c4State.forward_eval X =
          (SameSizeCatEmbeddings.singleLookup (mkTable 4 2 (fun _ _ => 0))
            c4State.cat_idx X).map (fun x => addBias3 bm x)) :=
  claim_C4 2 [("a", 0)] [("a", 3)] 0 (1/4) false false false false
    (fun _ _ => 0) (fun _ _ _ => 0) (fun _ _ => 0) c4State [] (by rfl)

theorem mem_zipWith {α β γ : Type} {f : α → β → γ} :
    ∀ {as : List α} {bs : List β} {c : γ}, c ∈ List.zipWith f as bs →
      ∃ a ∈ as, ∃ b ∈ bs, c = f a b := by
  intro as
  induction as with
  | nil => intro bs c h; simp at h
  | cons a as ih =>
    intro bs c h
    cases bs with
    | nil => simp at h
    | cons b bs =>
      rw [List.zipWith_cons_cons] at h
      rcases List.mem_cons.mp h with h | h
      · exact ⟨a, by simp, b, by simp, h⟩
      · rcases ih h with ⟨a2, ha, b2, hb, hc⟩
        exact ⟨a2, by simp [ha], b2, by simp [hb], hc⟩

theorem embLookupZ_ok {weight : Mat} {code : ℤ} (h0 : 0 ≤ code)
    (hlt : code.toNat < weight.length) :
    ∃ r, embLookupZ weight code = .ok r := by
  unfold embLookupZ
  rw [if_pos h0]
  obtain ⟨r, hr⟩ : ∃ r, weight.get? code.toNat = some r :=
    ⟨_, List.get?_eq_get hlt⟩
  rw [hr]
  exact ⟨r, rfl⟩

theorem lookup_layers (embed_input : List (String × ℕ × ℕ))
    (td : String → ℕ → ℕ → ℚ)
    (hnd : (embed_input.map (fun cvd => "emb_layer_" ++ cvd.1)).Nodup) :
    ∀ cvd ∈ embed_input,
      (embed_input.map (fun c => ("emb_layer_" ++ c.1,
        mkTable (c.2.1 + 1) c.2.2 (td c.1)))).lookup ("emb_layer_" ++ cvd.1) =
      some (mkTable (cvd.2.1 + 1) cvd.2.2 (td cvd.1)) := by
  induction embed_input with
  | nil => intro cvd h; simp at h
  | cons hd tl ih =>
    intro cvd hmem
    rcases List.mem_cons.mp hmem with rfl | htl
    · simp [List.lookup]
    · have hne : ("emb_layer_" ++ cvd.1) ≠ ("emb_layer_" ++ hd.1) := by
        intro hcontra
        have : ("emb_layer_" ++ hd.1) ∈ tl.map (fun c => "emb_layer_" ++ c.1) := by
          rw [← hcontra]
          exact List.mem_map_of_mem _ htl
        rw [List.map_cons, List.nodup_cons] at hnd
        exact hnd.1 this
      have hbeq : (("emb_layer_" ++ cvd.1) == ("emb_layer_" ++ hd.1)) = false :=
        beq_eq_false_iff_ne.mpr hne
      rw [List.map_cons]
      simp only [List.lookup, hbeq]
      exact ih (by rw [List.map_cons, List.nodup_cons] at hnd; exact hnd.2) cvd htl

theorem catCols_error : ∀ {ms : List Mat} {e : String},
    catCols ms = .error e → e = catEmptyMsg := by
  intro ms
  induction ms with
  | nil =>
    intro e h
    simp only [catCols] at h
    exact (Except.error.inj h).symm
  | cons M tl ih =>
    intro e h
    cases tl with
    | nil =>
      simp only [catCols] at h
      exact Except.noConfusion h
    | cons M2 tl2 =>
      simp only [catCols] at h
      cases hrec : catCols (M2 :: tl2) with
      | error e2 =>
        rw [hrec] at h
        cases h
        exact ih hrec
      | ok R =>
        rw [hrec] at h
        cases h

/-- C10.  Every per-column table of the variable-width categorical embedder
is created with `cardinality + 1` rows (row 0 reserved for padding); under
the precondition that every code lies in `[0, cardinality]` (and the spec
columns exist in the batch), every lookup performed by the forward pass is
in bounds — the lookup phase succeeds — and the forward pass cannot fail
with an out-of-range index: its only possible error is `torch.cat` on an
empty module list. -/
theorem claim_C10 (column_idx : List (String × ℕ))
    (embed_input : List (String × ℕ × ℕ)) (dropP : ℚ)
    (td : String → ℕ → ℕ → ℚ) (X : Mat) (F : ℕ)
    (hnd : (embed_input.map (fun cvd => "emb_layer_" ++ cvd.1)).Nodup)
    (hcols : ∀ cvd ∈ embed_input, ∃ i,
      column_idx.lookup cvd.1 = some i ∧ i < F)
    (hX : ∀ row ∈ X, row.length = F)
    (hcodes : ∀ cvd ∈ embed_input, ∀ row ∈ X, ∀ i v,
      column_idx.lookup cvd.1 = some i → row.get? i = some v →
      0 ≤ pyInt v ∧ (pyInt v).toNat ≤ cvd.2.1) :
    (∀ cvd ∈ embed_input, ∃ t,
      (DiffSizeCatEmbeddings.init column_idx embed_input dropP
        td).embed_layers.lookup ("emb_layer_" ++ cvd.1) = some t ∧
      t.length = cvd.2.1 + 1) ∧
    (∃ ms, (DiffSizeCatEmbeddings.init column_idx embed_input dropP
      td).lookupPhase X = .ok ms) ∧
    (∀ e, (DiffSizeCatEmbeddings.init column_idx embed_input dropP
      td).forward_eval X = .error e → e = catEmptyMsg) := by
  have hcol : ∀ cvd ∈ embed_input, ∃ M,
      (DiffSizeCatEmbeddings.init column_idx embed_input dropP
        td).colForward X cvd = .ok M := by
    intro cvd hm
    rcases hcols cvd hm with ⟨i, hlook, hiF⟩
    have hidx : lookupIdx column_idx cvd.1 = .ok i := by
      simp [lookupIdx, hlook]
    obtain ⟨codes, hcodesok⟩ : ∃ codes, sliceColZ X i = .ok codes := by
      apply mapME_ok_of_forall
      intro row hrow
      obtain ⟨v, hv⟩ : ∃ v, row.get? i = some v :=
        ⟨_, List.get?_eq_get (by rw [hX row hrow]; exact hiF)⟩
      exact ⟨pyInt v, by rw [hv]⟩
    have htab := lookup_layers embed_input td hnd cvd hm
    obtain ⟨rs, hrs⟩ : ∃ rs,
        mapME (embLookupZ (mkTable (cvd.2.1 + 1) cvd.2.2 (td cvd.1)))
          codes = .ok rs := by
      apply mapME_ok_of_forall
      intro code hcode
      rcases mapME_mem hcodesok code hcode with ⟨row, hrow, hfrow⟩
      cases hro : row.get? i with
      | none =>
        simp only [hro] at hfrow
        exact Except.noConfusion hfrow
      | some v =>
        simp only [hro] at hfrow
        cases hfrow
        rcases hcodes cvd hm row hrow i v hlook hro with ⟨h0, hle⟩
        apply embLookupZ_ok h0
        rw [(mkTable_shape _ _ _).1]
        omega
    refine ⟨rs, ?_⟩
    simp only [DiffSizeCatEmbeddings.colForward, DiffSizeCatEmbeddings.init,
      hidx, ok_bind, hcodesok, htab, hrs]
  rcases mapME_ok_of_forall hcol with ⟨ms, hms⟩
  have hms2 : (DiffSizeCatEmbeddings.init column_idx embed_input dropP
      td).lookupPhase X = .ok ms := hms
  refine ⟨?_, ⟨ms, hms2⟩, ?_⟩
  · intro cvd hm
    refine ⟨mkTable (cvd.2.1 + 1) cvd.2.2 (td cvd.1), ?_, (mkTable_shape _ _ _).1⟩
    simp only [DiffSizeCatEmbeddings.init]
    exact lookup_layers embed_input td hnd cvd hm
  · intro e he
    simp only [DiffSizeCatEmbeddings.forward_eval] at he
    rw [hms2] at he
    simp only [ok_bind] at he
    exact catCols_error he

/-- C10 witness: one column of cardinality 2 and width 3, one batch row
with code 1. -/
theorem claim_C10_witness :
    (∀ cvd ∈ [("a", 2, 3)], ∃ t,
      (DiffSizeCatEmbeddings.init [("a", 0)] [("a", 2, 3)] 0
        (fun _ _ _ => 0)).embed_layers.lookup ("emb_layer_" ++ cvd.1) = some t ∧
      t.length = cvd.2.1 + 1) ∧
    (∃ ms, (DiffSizeCatEmbeddings.init [("a", 0)] [("a", 2, 3)] 0
      (fun _ _ _ => 0)).lookupPhase [[1]] = .ok ms) ∧
    (∀ e, (DiffSizeCatEmbeddings.init [("a", 0)] [("a", 2, 3)] 0
      (fun _ _ _ => 0)).forward_eval [[1]] = .error e → e = catEmptyMsg) :=
  claim_C10 [("a", 0)] [("a", 2, 3)] 0 (fun _ _ _ => 0) [[1]] 1
    (by simp)
    (by intro cvd h; rw [List.mem_singleton] at h; subst h
        exact ⟨0, rfl, Nat.one_pos⟩)
    (by intro row h; rw [List.mem_singleton] at h; subst h; rfl)
    (by intro cvd hm row hrow i v hl hv
        rw [List.mem_singleton] at hm hrow
        subst hm; subst hrow
        have hi : i = 0 := by simpa using hl.symm
        subst hi
        have hv1 : (1 : ℚ) = v := by simpa using hv
        subst hv1
        norm_num [pyInt])

theorem embLookupZ_mem {weight : Mat} {code : ℤ} {r : Vec}
    (h : embLookupZ weight code = .ok r) : r ∈ weight := by
  unfold embLookupZ at h
  by_cases h0 : 0 ≤ code
  · rw [if_pos h0] at h
    cases hg : weight.get? code.toNat with
    | none => rw [hg] at h; exact Except.noConfusion h
    | some r2 => rw [hg] at h; cases h; exact List.get?_mem hg
  · rw [if_neg h0] at h
    exact Except.noConfusion h

theorem mapME_forall₂ {α β γ : Type} {f : α → Except String β}
    {R : β → γ → Prop} {g : α → γ} :
    ∀ {xs : List α} {ys : List β}, mapME f xs = .ok ys →
      (∀ x ∈ xs, ∀ y, f x = .ok y → R y (g x)) →
      List.Forall₂ R ys (xs.map g) := by
  intro xs
  induction xs with
  | nil => intro ys h _; cases h; exact List.Forall₂.nil
  | cons a as ih =>
    intro ys h hp
    simp only [mapME] at h
    cases hfa : f a with
    | error e => rw [hfa] at h; exact Except.noConfusion h
    | ok b =>
      rw [hfa] at h
      simp only [ok_bind] at h
      cases hrest : mapME f as with
      | error e => rw [hrest] at h; exact Except.noConfusion h
      | ok bs =>
        rw [hrest] at h
        simp only [ok_bind] at h
        cases h
        exact List.Forall₂.cons (hp a (by simp) b hfa)
          (ih hrest (fun x hx => hp x (by simp [hx])))

theorem catCols_shape {N : ℕ} :
    ∀ {Ms : List Mat} {ws : List ℕ},
      List.Forall₂ (fun M w => matShape M N w) Ms ws → Ms ≠ [] →
      ∃ R, catCols Ms = .ok R ∧ matShape R N ws.sum := by
  intro Ms ws h
  induction h with
  | nil => intro hne; exact absurd rfl hne
  | @cons M w Ms2 ws2 hMw htail ih =>
    intro _
    cases htail with
    | nil =>
      refine ⟨M, rfl, ?_, ?_⟩
      · exact hMw.1
      · intro r hr
        rw [hMw.2 r hr]
        simp
    | @cons M2 w2 Ms3 ws3 hMw2 htail2 =>
      rcases ih (by simp) with ⟨R, hR, hshape⟩
      refine ⟨M.zipWith (· ++ ·) R, ?_, ?_, ?_⟩
      · simp only [catCols, hR]
        rfl
      · rw [List.length_zipWith, hMw.1, hshape.1, min_self]
      · intro r hr
        rcases mem_zipWith hr with ⟨a, ha, b, hb, rfl⟩
        rw [List.length_append, hMw.2 a ha, hshape.2 b hb]
        simp [List.sum_cons]

theorem sum_map_length {s : Mat} {D : ℕ} (hr : ∀ r ∈ s, r.length = D) :
    (s.map List.length).sum = s.length * D := by
  induction s with
  | nil => simp
  | cons a t ih =>
    simp only [List.map_cons, List.sum_cons, List.length_cons]
    rw [hr a (by simp), ih (fun r h => hr r (by simp [h]))]
    ring

theorem sliceCols_shape {X : Mat} {idxs : List ℕ} {F : ℕ}
    (hidx : ∀ i ∈ idxs, i < F) (hX : ∀ row ∈ X, row.length = F) :
    ∃ S, sliceCols X idxs = .ok S ∧ matShape S X.length idxs.length := by
  obtain ⟨S, hS⟩ : ∃ S, sliceCols X idxs = .ok S := by
    apply mapME_ok_of_forall
    intro row hrow
    apply mapME_ok_of_forall
    intro i hi
    obtain ⟨v, hv⟩ : ∃ v, row.get? i = some v :=
      ⟨_, List.get?_eq_get (by rw [hX row hrow]; exact hidx i hi)⟩
    exact ⟨v, by rw [hv]⟩
  refine ⟨S, hS, mapME_length hS, ?_⟩
  intro r hr
  rcases mapME_mem hS r hr with ⟨row, _, hfrow⟩
  exact mapME_length hfrow

theorem contInit_shapes (C D : ℕ) (p : ℚ) (ub : Bool) (act : Option (ℚ → ℚ))
    (wd bd : ℕ → ℕ → ℚ) :
    (ContEmbeddings.init C D p ub act wd bd).weight.length = C ∧
    (∀ r ∈ (ContEmbeddings.init C D p ub act wd bd).weight, r.length = D) ∧
    (∀ bm, (ContEmbeddings.init C D p ub act wd bd).bias = some bm →
      bm.length = C ∧ ∀ r ∈ bm, r.length = D) := by
  refine ⟨by simp [ContEmbeddings.init], ?_, ?_⟩
  · intro r hr
    simp only [ContEmbeddings.init, List.mem_map] at hr
    rcases hr with ⟨i, _, rfl⟩
    simp
  · intro bm hbm
    simp only [ContEmbeddings.init] at hbm
    cases ub with
    | false => simp at hbm
    | true =>
      simp only [if_true] at hbm
      cases hbm
      constructor
      · simp
      · intro r hr
        simp only [List.mem_map] at hr
        rcases hr with ⟨i, _, rfl⟩
        simp

theorem contForward_shape (m : ContEmbeddings) (X : Mat) (C D : ℕ)
    (keep : ℕ → ℕ → ℕ → Bool)
    (hW : m.weight.length = C) (hWr : ∀ r ∈ m.weight, r.length = D)
    (hb : ∀ bm, m.bias = some bm → bm.length = C ∧ ∀ r ∈ bm, r.length = D)
    (hX : ∀ row ∈ X, row.length = C) :
    (m.forward false keep X).length = X.length ∧
    ∀ s ∈ m.forward false keep X, s.length = C ∧ ∀ r ∈ s, r.length = D := by
  have hxlen : ∀ row ∈ X,
      (List.zipWith (fun wr xv => wr.map (fun w => w * xv)) m.weight row).length
        = C := by
    intro row hrow
    rw [List.length_zipWith, hW, hX row hrow, min_self]
  have hxmem : ∀ row ∈ X,
      ∀ r ∈ List.zipWith (fun wr xv => wr.map (fun w => w * xv)) m.weight row,
        r.length = D := by
    intro row hrow r hr
    rcases mem_zipWith hr with ⟨wr, hwr, xv, _, rfl⟩
    rw [List.length_map]
    exact hWr wr hwr
  cases hbo : m.bias with
  | some bm =>
    rcases hb bm hbo with ⟨hbmlen, hbmr⟩
    cases hao : m.act with
    | some f =>
      constructor
      · simp [ContEmbeddings.forward, hbo, hao]
      · intro s hs
        simp only [ContEmbeddings.forward, hbo, hao, Bool.false_eq_true,
          if_false, List.mem_map] at hs
        rcases hs with ⟨s2, hs2, rfl⟩
        rcases hs2 with ⟨s3, hs3, rfl⟩
        rcases hs3 with ⟨row, hrow, rfl⟩
        constructor
        · rw [List.length_map, List.length_zipWith, hxlen row hrow, hbmlen,
            min_self]
        · intro r hr
          simp only [List.mem_map] at hr
          rcases hr with ⟨r2, hr2, rfl⟩
          rcases mem_zipWith hr2 with ⟨er, her, br, hbr, rfl⟩
          rw [List.length_map, List.length_zipWith,
            hxmem row hrow er her, hbmr br hbr, min_self]
    | none =>
      constructor
      · simp [ContEmbeddings.forward, hbo, hao]
      · intro s hs
        simp only [ContEmbeddings.forward, hbo, hao, Bool.false_eq_true,
          if_false, List.mem_map] at hs
        rcases hs with ⟨s2, hs2, rfl⟩
        rcases hs2 with ⟨row, hrow, rfl⟩
        constructor
        · rw [List.length_zipWith, hxlen row hrow, hbmlen, min_self]
        · intro r hr
          rcases mem_zipWith hr with ⟨er, her, br, hbr, rfl⟩
          rw [List.length_zipWith, hxmem row hrow er her, hbmr br hbr,
            min_self]
  | none =>
    cases hao : m.act with
    | some f =>
      constructor
      · simp [ContEmbeddings.forward, hbo, hao]
      · intro s hs
        simp only [ContEmbeddings.forward, hbo, hao, Bool.false_eq_true,
          if_false, List.mem_map] at hs
        rcases hs with ⟨s2, hs2, rfl⟩
        rcases hs2 with ⟨row, hrow, rfl⟩
        constructor
        · rw [List.length_map, hxlen row hrow]
        · intro r hr
          simp only [List.mem_map] at hr
          rcases hr with ⟨r2, hr2, rfl⟩
          rw [List.length_map, hxmem row hrow r2 hr2]
    | none =>
      constructor
      · simp [ContEmbeddings.forward, hbo, hao]
      · intro s hs
        simp only [ContEmbeddings.forward, hbo, hao, Bool.false_eq_true,
          if_false, List.mem_map] at hs
        rcases hs with ⟨row, hrow, rfl⟩
        exact ⟨hxlen row hrow, hxmem row hrow⟩

theorem colForward_shape (column_idx : List (String × ℕ))
    (embed_input : List (String × ℕ × ℕ)) (dropP : ℚ)
    (td : String → ℕ → ℕ → ℚ) (X : Mat) (F : ℕ)
    (hnd : (embed_input.map (fun cvd => "emb_layer_" ++ cvd.1)).Nodup)
    (hcols : ∀ cvd ∈ embed_input, ∃ i,
      column_idx.lookup cvd.1 = some i ∧ i < F)
    (hX : ∀ row ∈ X, row.length = F)
    (hcodes : ∀ cvd ∈ embed_input, ∀ row ∈ X, ∀ i v,
      column_idx.lookup cvd.1 = some i → row.get? i = some v →
      0 ≤ pyInt v ∧ (pyInt v).toNat ≤ cvd.2.1) :
    ∀ cvd ∈ embed_input, ∃ M,
      (DiffSizeCatEmbeddings.init column_idx embed_input dropP
        td).colForward X cvd = .ok M ∧ matShape M X.length cvd.2.2 := by
  intro cvd hm
  rcases hcols cvd hm with ⟨i, hlook, hiF⟩
  have hidx : lookupIdx column_idx cvd.1 = .ok i := by
    simp [lookupIdx, hlook]
  obtain ⟨codes, hcodesok⟩ : ∃ codes, sliceColZ X i = .ok codes := by
    apply mapME_ok_of_forall
    intro row hrow
    obtain ⟨v, hv⟩ : ∃ v, row.get? i = some v :=
      ⟨_, List.get?_eq_get (by rw [hX row hrow]; exact hiF)⟩
    exact ⟨pyInt v, by rw [hv]⟩
  have htab := lookup_layers embed_input td hnd cvd hm
  obtain ⟨rs, hrs⟩ : ∃ rs,
      mapME (embLookupZ (mkTable (cvd.2.1 + 1) cvd.2.2 (td cvd.1)))
        codes = .ok rs := by
    apply mapME_ok_of_forall
    intro code hcode
    rcases mapME_mem hcodesok code hcode with ⟨row, hrow, hfrow⟩
    cases hro : row.get? i with
    | none =>
      simp only [hro] at hfrow
      exact Except.noConfusion hfrow
    | some v =>
      simp only [hro] at hfrow
      cases hfrow
      rcases hcodes cvd hm row hrow i v hlook hro with ⟨h0, hle⟩
      apply embLookupZ_ok h0
      rw [(mkTable_shape _ _ _).1]
      omega
  refine ⟨rs, ?_, ?_, ?_⟩
  · simp only [DiffSizeCatEmbeddings.colForward, DiffSizeCatEmbeddings.init,
      hidx, ok_bind, hcodesok, htab, hrs]
  · rw [mapME_length hrs, mapME_length hcodesok]
  · intro r hr
    rcases mapME_mem hrs r hr with ⟨code, _, hlkup⟩
    have hmem := embLookupZ_mem hlkup
    exact (mkTable_shape _ _ _).2 r hmem

theorem diffCat_forward_shape (column_idx : List (String × ℕ))
    (embed_input : List (String × ℕ × ℕ)) (dropP : ℚ)
    (td : String → ℕ → ℕ → ℚ) (X : Mat) (F : ℕ)
    (hnd : (embed_input.map (fun cvd => "emb_layer_" ++ cvd.1)).Nodup)
    (hcols : ∀ cvd ∈ embed_input, ∃ i,
      column_idx.lookup cvd.1 = some i ∧ i < F)
    (hX : ∀ row ∈ X, row.length = F)
    (hcodes : ∀ cvd ∈ embed_input, ∀ row ∈ X, ∀ i v,
      column_idx.lookup cvd.1 = some i → row.get? i = some v →
      0 ≤ pyInt v ∧ (pyInt v).toNat ≤ cvd.2.1)
    (hne : embed_input ≠ []) :
    ∃ Mc, (DiffSizeCatEmbeddings.init column_idx embed_input dropP
        td).forward_eval X = .ok Mc ∧
      matShape Mc X.length ((embed_input.map (fun cvd => cvd.2.2)).sum) := by
  have hcol := colForward_shape column_idx embed_input dropP td X F hnd
    hcols hX hcodes
  obtain ⟨ms, hms⟩ : ∃ ms, mapME ((DiffSizeCatEmbeddings.init column_idx
      embed_input dropP td).colForward X) embed_input = .ok ms :=
    mapME_ok_of_forall (fun cvd hm => (hcol cvd hm).imp (fun M h => h.1))
  have hf2 : List.Forall₂ (fun M w => matShape M X.length w) ms
      (embed_input.map (fun cvd => cvd.2.2)) := by
    apply mapME_forall₂ hms
    intro cvd hm M hM
    rcases hcol cvd hm with ⟨M2, hM2, hsh⟩
    rw [hM2] at hM
    cases hM
    exact hsh
  have hmsne : ms ≠ [] := by
    intro h
    subst h
    have hlen := mapME_length hms
    cases hei : embed_input with
    | nil => exact hne hei
    | cons a as => rw [hei] at hlen; simp at hlen
  rcases catCols_shape hf2 hmsne with ⟨R, hR, hsh⟩
  refine ⟨R, ?_, hsh⟩
  have hms2 : (DiffSizeCatEmbeddings.init column_idx embed_input dropP
      td).lookupPhase X = .ok ms := hms
  simp only [DiffSizeCatEmbeddings.forward_eval]
  rw [hms2]
  simp only [ok_bind]
  exact hR

theorem rearrange_shape {t : T3} {N C D : ℕ} (h1 : t.length = N)
    (h2 : ∀ s ∈ t, s.length = C ∧ ∀ r ∈ s, r.length = D) :
    matShape (rearrangeBSD t) N (C * D) := by
  constructor
  · simp [rearrangeBSD, h1]
  · intro r hr
    simp only [rearrangeBSD, List.mem_map] at hr
    rcases hr with ⟨s, hs, rfl⟩
    rw [List.length_flatten, sum_map_length (h2 s hs).2, (h2 s hs).1]

end WideDeep
